import Mathlib

/-!
Verification of the Bw-tree building block (`src/bwtree/bwtree.h`).

The C++ core is shallowly embedded: each class that the claims mention is
translated to a Lean structure, and each member function to a Lean function
on that structure.  Machine integers (`uint16_t` heights, `uint32_t` sizes)
are modelled as `Nat` with explicit `% 2^16` / `% 2^32` at the points where
the C++ performs arithmetic on them.  Heap pointers are modelled by values;
the pointer identity used by the mapping-table CAS is modelled by value
equality on an abstract pointer type with decidable equality.
-/

namespace BwTreeSpec

/-- The `NodeType` enumeration of `bwtree.h` (lines 76-90). -/
inductive NodeType where
  | InnerBase | InnerInsert | InnerDelete | InnerSplit | InnerRemove | InnerMerge
  | LeafBase | LeafInsert | LeafDelete | LeafSplit | LeafRemove | LeafMerge
deriving DecidableEq

/-- `BoundKey<KeyType>` (lines 32-62): a key together with a single `inf`
flag.  There is no separate negative/positive infinity tag in the source. -/
structure BoundKey (K : Type) where
  key : K
  inf : Bool
deriving DecidableEq

/-- `BoundKey::GetInf()` : `BoundKey{KeyType{}, true}` — the default-constructed
key with the infinity flag set; the single sentinel used for both ends. -/
def BoundKey.GetInf {K : Type} [Inhabited K] : BoundKey K := ⟨default, true⟩

/-- `BoundKey::Get(key)` : `BoundKey{key, false}` — a finite bound. -/
def BoundKey.Get {K : Type} (k : K) : BoundKey K := ⟨k, false⟩

/-- `NodeBase::KeyLargerThanNode(key)` (lines 274-276):
`high_key_p->IsInf() == false && *high_key_p <= key`.  The short-circuit
guarantees the bound-key comparison only runs on a finite bound. -/
def keyLargerThanNode {K : Type} [LinearOrder K] (highKey : BoundKey K) (k : K) : Bool :=
  !highKey.inf && decide (highKey.key ≤ k)

/-- `NodeBase::KeySmallerThanNode(key)` (lines 280-282):
`low_key_p->IsInf() == false && *low_key_p > key`. -/
def keySmallerThanNode {K : Type} [LinearOrder K] (lowKey : BoundKey K) (k : K) : Bool :=
  !lowKey.inf && decide (lowKey.key > k)

/-- `NodeBase::KeyInNode(key)` (lines 285-287):
`KeyLargerThanNode(key) == false && KeySmallerThanNode(key) == false`. -/
def keyInNode {K : Type} [LinearOrder K] (lowKey highKey : BoundKey K) (k : K) : Bool :=
  !keyLargerThanNode highKey k && !keySmallerThanNode lowKey k

/-- `DefaultBaseNode<KeyType, ValueType, DeltaChainType>` (lines 518-656).
The dense sorted array of `size` keys and `size` values is modelled by the
lists `keys` and `values`; `GetSize()` is `keys.length`. -/
structure DefaultBaseNode (K V : Type) where
  ntype : NodeType
  keys : List K
  values : List V
  lowKey : BoundKey K
  highKey : BoundKey K
deriving DecidableEq

/-- `KeyInNode` inherited from `NodeBase`, applied to a base node's bounds. -/
def DefaultBaseNode.KeyInNode {K V : Type} [LinearOrder K] (n : DefaultBaseNode K V)
    (k : K) : Bool :=
  keyInNode n.lowKey n.highKey k

/-- `std::upper_bound(first, last, key)` on the range modelled by `l`:
the index of the first element `x` with `key < x` (or `l.length` when no
such element exists).  The C++ binary search coincides with this linear
characterisation on the partitioned (in our use: sorted) ranges it is
applied to. -/
def upperBound {K : Type} [LinearOrder K] (l : List K) (k : K) : Nat :=
  l.findIdx (fun x => decide (k < x))

/-- `DefaultBaseNode::Search(key)` (lines 597-604):
`(std::upper_bound(KeyBegin() + 1, KeyEnd(), key) - KeyBegin()) - 1`.
The iterator difference from `KeyBegin()` is `1 + upperBound` over the tail
`keys[1..size)`; the result is an `int`. -/
def DefaultBaseNode.Search {K V : Type} [LinearOrder K] (n : DefaultBaseNode K V)
    (k : K) : Int :=
  (1 + (upperBound (n.keys.drop 1) k : Int)) - 1

/-- `DefaultBaseNode::KeyAt(index)` (line 582): `KeyBegin()[index]`. -/
def DefaultBaseNode.KeyAt {K V : Type} [Inhabited K] (n : DefaultBaseNode K V)
    (i : Int) : K :=
  n.keys.getD i.toNat default

/-- `DefaultBaseNode::PointSearch(key)` (lines 607-610):
`index = Search(key); return KeyAt(index) == key ? index : -1;`. -/
def DefaultBaseNode.PointSearch {K V : Type} [LinearOrder K] [Inhabited K]
    (n : DefaultBaseNode K V) (k : K) : Int :=
  if n.KeyAt (n.Search k) = k then n.Search k else -1

/-- `DefaultBaseNode::Split()` (lines 625-640): `pivot = old_size / 2`;
allocates via `Get` a node of the same type and size `old_size - pivot`
with low bound `{KeyAt(pivot), false}` and the current high bound, then
copies `keys[pivot..)` and `values[pivot..)` into it (`Get` sets the new
node's height to 0).  The function is pure in this embedding, matching the
source, which writes only through the freshly allocated node. -/
def DefaultBaseNode.Split {K V : Type} [Inhabited K] (n : DefaultBaseNode K V) :
    DefaultBaseNode K V :=
  { ntype := n.ntype
    keys := n.keys.drop (n.keys.length / 2)
    values := n.values.drop (n.keys.length / 2)
    lowKey := BoundKey.Get (n.keys.getD (n.keys.length / 2) default)
    highKey := n.highKey }

/-- Claim C10: a bound key carries a single infinity flag; for every node,
`KeySmallerThanNode k` holds iff the low bound is finite and greater than
`k`, `KeyLargerThanNode k` holds iff the high bound is finite and at most
`k`, `KeyInNode k` holds iff neither holds; an infinite bound therefore
behaves as negative infinity in low position and positive infinity in high
position, and `GetInf` is the single sentinel serving both ends. -/
theorem boundKey_single_sentinel {K : Type} [LinearOrder K] [Inhabited K]
    (low high : BoundKey K) (k : K) :
    (keySmallerThanNode low k = true ↔ low.inf = false ∧ k < low.key)
    ∧ (keyLargerThanNode high k = true ↔ high.inf = false ∧ high.key ≤ k)
    ∧ (keyInNode low high k = true ↔
        keyLargerThanNode high k = false ∧ keySmallerThanNode low k = false)
    ∧ (low.inf = true → keySmallerThanNode low k = false)
    ∧ (high.inf = true → keyLargerThanNode high k = false)
    ∧ (BoundKey.GetInf (K := K)).inf = true := by
  refine ⟨?_, ?_, ?_, ?_, ?_, rfl⟩
  · simp [keySmallerThanNode, gt_iff_lt]
  · simp [keyLargerThanNode]
  · simp [keyInNode]
  · intro h; simp [keySmallerThanNode, h]
  · intro h; simp [keyLargerThanNode, h]

/-- Witness for C10 at a concrete node: low bound finite 5, high bound
finite 30, key 10. -/
theorem boundKey_single_sentinel_witness :
    (keySmallerThanNode (⟨(5 : Int), false⟩ : BoundKey Int) 10 = true ↔
      (false : Bool) = false ∧ (10 : Int) < 5)
    ∧ (keyLargerThanNode (⟨(30 : Int), false⟩ : BoundKey Int) 10 = true ↔
      (false : Bool) = false ∧ (30 : Int) ≤ 10)
    ∧ (keyInNode (⟨(5 : Int), false⟩ : BoundKey Int) ⟨30, false⟩ 10 = true ↔
        keyLargerThanNode (⟨(30 : Int), false⟩ : BoundKey Int) 10 = false
        ∧ keySmallerThanNode (⟨(5 : Int), false⟩ : BoundKey Int) 10 = false) := by
  have h := boundKey_single_sentinel (⟨(5 : Int), false⟩ : BoundKey Int) ⟨30, false⟩ 10
  exact ⟨h.1, h.2.1, h.2.2.1⟩

/-- On a strictly ascending list the predicate `k < x` is upward closed, so
`upperBound` (the first index whose element exceeds `k`) splits the list:
an element is `≤ k` exactly when its index lies below `upperBound`. -/
theorem sorted_le_iff_lt_upperBound {K : Type} [LinearOrder K] {l : List K} (k : K)
    (hp : l.Pairwise (· < ·)) {j : Nat} (hj : j < l.length) :
    l.get ⟨j, hj⟩ ≤ k ↔ j < upperBound l k := by
  unfold upperBound
  rw [List.get_eq_getElem]
  set F := l.findIdx (fun x => decide (k < x)) with hF
  constructor
  · intro hle
    by_contra hnot
    push_neg at hnot
    have hflt : F < l.length := lt_of_le_of_lt hnot hj
    have hptrue : k < l[F] := by
      have := @List.findIdx_getElem _ (fun x => decide (k < x)) l
        (by rw [← hF]; exact hflt)
      simpa [← hF] using this
    rcases lt_or_eq_of_le hnot with hlt | heq
    · have hmono : l[F] < l[j] := by
        have := List.pairwise_iff_get.mp hp ⟨F, hflt⟩ ⟨j, hj⟩ hlt
        simpa using this
      exact absurd hle (not_le.mpr (hptrue.trans hmono))
    · subst heq
      exact absurd hle (not_le.mpr hptrue)
  · intro hlt
    have hfalse := @List.not_of_lt_findIdx _ (fun x => decide (k < x)) l j
      (by rw [← hF]; exact hlt)
    have hnotlt : ¬ k < l[j] := by simpa using hfalse
    exact not_lt.mp hnotlt

/-- `Search` is the `upper_bound` over `keys[1..size)` expressed as an index
into the whole array: `(1 + ub) - 1 = ub`. -/
theorem Search_eq_upperBound {K V : Type} [LinearOrder K] (n : DefaultBaseNode K V)
    (k : K) :
    n.Search k = (upperBound (n.keys.drop 1) k : Int) := by
  unfold DefaultBaseNode.Search
  omega

/-- Claim C1: on a base node with strictly ascending keys and a key `k` in
the node's range, `Search k` is in bounds and is the greatest index `i`
such that `keys[i] ≤ k`, where index 0 is excluded from the binary search
and so counts as "less-or-equal" (for `k` below `keys[1]` the result is 0,
the only index `j ≥ 1` with `keys[j] ≤ k` being none); `PointSearch k`
returns the index holding `k` when `k` is present and `-1` otherwise. -/
theorem search_pointSearch_correct {K V : Type} [LinearOrder K] [Inhabited K]
    (n : DefaultBaseNode K V) (k : K)
    (hsort : n.keys.Pairwise (· < ·)) (hne : n.keys ≠ [])
    (hin : n.KeyInNode k = true) :
    (0 ≤ n.Search k ∧ n.Search k < (n.keys.length : Int))
    ∧ (∀ (j : Nat) (hj : j < n.keys.length), 1 ≤ j →
        (n.keys.get ⟨j, hj⟩ ≤ k ↔ (j : Int) ≤ n.Search k))
    ∧ (∀ (j : Nat) (hj : j < n.keys.length),
        n.keys.get ⟨j, hj⟩ = k → n.PointSearch k = (j : Int))
    ∧ (k ∉ n.keys → n.PointSearch k = -1) := by
  have hlen : 0 < n.keys.length := List.length_pos.mpr hne
  have htsort : (n.keys.drop 1).Pairwise (· < ·) :=
    List.Pairwise.sublist (List.drop_sublist 1 n.keys) hsort
  have hse : n.Search k = (upperBound (n.keys.drop 1) k : Int) := Search_eq_upperBound n k
  have hule : upperBound (n.keys.drop 1) k ≤ (n.keys.drop 1).length :=
    List.findIdx_le_length _
  have hulen : upperBound (n.keys.drop 1) k ≤ n.keys.length - 1 := by
    rw [List.length_drop] at hule
    exact hule
  have hbounds : 0 ≤ n.Search k ∧ n.Search k < (n.keys.length : Int) := by
    rw [hse]
    omega
  have hchar : ∀ (j : Nat) (hj : j < n.keys.length), 1 ≤ j →
      (n.keys.get ⟨j, hj⟩ ≤ k ↔ (j : Int) ≤ n.Search k) := by
    intro j hj h1
    obtain ⟨i, rfl⟩ : ∃ i, j = 1 + i := ⟨j - 1, by omega⟩
    have hi : i < (n.keys.drop 1).length := by
      rw [List.length_drop]
      omega
    have hget : (n.keys.drop 1).get ⟨i, hi⟩ = n.keys.get ⟨1 + i, hj⟩ := by
      simp [List.get_eq_getElem, List.getElem_drop, Nat.add_comm]
    rw [← hget, sorted_le_iff_lt_upperBound k htsort hi, hse]
    omega
  have hsearchNat : (n.Search k).toNat = upperBound (n.keys.drop 1) k := by
    rw [hse]
    omega
  have hsearch_eq_of_mem : ∀ (j : Nat) (hj : j < n.keys.length),
      n.keys.get ⟨j, hj⟩ = k → n.Search k = (j : Int) := by
    intro j hj hkey
    rcases Nat.eq_zero_or_pos j with hj0 | hj1
    · subst hj0
      rw [hse]
      by_contra hne0
      have hupos : 0 < upperBound (n.keys.drop 1) k := by omega
      have h1len : 1 < n.keys.length := by
        have := hulen
        omega
      have h1k : n.keys.get ⟨1, h1len⟩ ≤ k := (hchar 1 h1len le_rfl).mpr (by rw [hse]; omega)
      have h01 : n.keys.get ⟨0, hlen⟩ < n.keys.get ⟨1, h1len⟩ :=
        List.pairwise_iff_get.mp hsort ⟨0, hlen⟩ ⟨1, h1len⟩ (by simp)
      rw [hkey] at h01
      exact absurd h1k (not_le.mpr h01)
    · have hjle : (j : Int) ≤ n.Search k := (hchar j hj hj1).mp (le_of_eq hkey)
      have hupos : 1 ≤ upperBound (n.keys.drop 1) k := by
        rw [hse] at hjle
        omega
      have huj : upperBound (n.keys.drop 1) k < n.keys.length := by omega
      have huk : n.keys.get ⟨upperBound (n.keys.drop 1) k, huj⟩ ≤ k :=
        (hchar _ huj hupos).mpr (by rw [hse])
      by_contra hneq
      have hjlt : j < upperBound (n.keys.drop 1) k := by
        rw [hse] at hneq hjle
        omega
      have hmono : n.keys.get ⟨j, hj⟩ < n.keys.get ⟨upperBound (n.keys.drop 1) k, huj⟩ :=
        List.pairwise_iff_get.mp hsort _ _ hjlt
      rw [hkey] at hmono
      exact absurd huk (not_le.mpr hmono)
  refine ⟨hbounds, hchar, ?_, ?_⟩
  · intro j hj hkey
    have hsj : n.Search k = (j : Int) := hsearch_eq_of_mem j hj hkey
    have hkeyAt : n.KeyAt (n.Search k) = k := by
      unfold DefaultBaseNode.KeyAt
      have htn : (n.Search k).toNat = j := by omega
      rw [htn, List.getD_eq_getElem n.keys default hj, ← hkey]
      simp [List.get_eq_getElem]
    unfold DefaultBaseNode.PointSearch
    rw [if_pos hkeyAt]
    exact hsj
  · intro hmem
    have hkeyAt : n.KeyAt (n.Search k) ≠ k := by
      unfold DefaultBaseNode.KeyAt
      have hult : (n.Search k).toNat < n.keys.length := by
        rw [hsearchNat]
        omega
      rw [List.getD_eq_getElem n.keys default hult]
      intro hEq
      exact hmem (hEq ▸ List.getElem_mem hult)
    unfold DefaultBaseNode.PointSearch
    rw [if_neg hkeyAt]

/-- Witness for C1: the node with keys `[10, 20, 30]`.  `Search 20` is in
bounds, `PointSearch 20` returns index 1, and `PointSearch 25` returns -1. -/
theorem search_pointSearch_correct_witness :
    (0 ≤ (DefaultBaseNode.mk NodeType.LeafBase [10, 20, 30] ([] : List Int)
        (BoundKey.Get 5) (BoundKey.Get 100) : DefaultBaseNode Int Int).Search 20
      ∧ (DefaultBaseNode.mk NodeType.LeafBase [10, 20, 30] ([] : List Int)
        (BoundKey.Get 5) (BoundKey.Get 100)).Search 20 < (3 : Int))
    ∧ (DefaultBaseNode.mk NodeType.LeafBase [10, 20, 30] ([] : List Int)
        (BoundKey.Get 5) (BoundKey.Get 100)).PointSearch 20 = (1 : Int)
    ∧ (DefaultBaseNode.mk NodeType.LeafBase [10, 20, 30] ([] : List Int)
        (BoundKey.Get 5) (BoundKey.Get 100)).PointSearch 25 = -1 := by
  have h20 := search_pointSearch_correct
    (DefaultBaseNode.mk NodeType.LeafBase [10, 20, 30] ([] : List Int)
      (BoundKey.Get 5) (BoundKey.Get 100)) 20
    (by decide) (by decide) (by decide)
  have h25 := search_pointSearch_correct
    (DefaultBaseNode.mk NodeType.LeafBase [10, 20, 30] ([] : List Int)
      (BoundKey.Get 5) (BoundKey.Get 100)) 25
    (by decide) (by decide) (by decide)
  exact ⟨h20.1, h20.2.2.1 1 (by decide) (by decide), h25.2.2.2 (by decide)⟩

/-- Claim C2: on a base node of size `n > 1`, `Split` returns a node of the
same node type whose size is `n - n / 2`, whose low bound is the finite key
`keys[n / 2]`, whose high bound is the original high bound, and whose
entries are `keys[n/2..n)` and `values[n/2..n)`.  The original node is a
value in this pure embedding and is untouched, matching the source, which
writes only into the freshly allocated node. -/
theorem split_correct {K V : Type} [Inhabited K] (n : DefaultBaseNode K V)
    (hsize : 1 < n.keys.length) (hval : n.values.length = n.keys.length) :
    n.Split.ntype = n.ntype
    ∧ n.Split.keys.length = n.keys.length - n.keys.length / 2
    ∧ n.Split.values.length = n.keys.length - n.keys.length / 2
    ∧ n.Split.lowKey = BoundKey.Get (n.keys.getD (n.keys.length / 2) default)
    ∧ n.Split.lowKey.inf = false
    ∧ n.Split.highKey = n.highKey
    ∧ n.Split.keys = n.keys.drop (n.keys.length / 2)
    ∧ n.Split.values = n.values.drop (n.keys.length / 2) := by
  unfold DefaultBaseNode.Split
  refine ⟨rfl, ?_, ?_, rfl, rfl, rfl, rfl, rfl⟩
  · rw [List.length_drop]
  · rw [List.length_drop, hval]

/-- Witness for C2 at a node with keys `[1, 3, 5, 7]` (pivot 2). -/
theorem split_correct_witness :
    (DefaultBaseNode.mk NodeType.LeafBase [1, 3, 5, 7] ([10, 30, 50, 70] : List Int)
        (BoundKey.Get 0) (BoundKey.Get 9) : DefaultBaseNode Int Int).Split.ntype
        = NodeType.LeafBase
    ∧ (DefaultBaseNode.mk NodeType.LeafBase [1, 3, 5, 7] ([10, 30, 50, 70] : List Int)
        (BoundKey.Get 0) (BoundKey.Get 9) : DefaultBaseNode Int Int).Split.keys.length = 2
    ∧ (DefaultBaseNode.mk NodeType.LeafBase [1, 3, 5, 7] ([10, 30, 50, 70] : List Int)
        (BoundKey.Get 0) (BoundKey.Get 9) : DefaultBaseNode Int Int).Split.lowKey
        = BoundKey.Get 5
    ∧ (DefaultBaseNode.mk NodeType.LeafBase [1, 3, 5, 7] ([10, 30, 50, 70] : List Int)
        (BoundKey.Get 0) (BoundKey.Get 9) : DefaultBaseNode Int Int).Split.highKey
        = BoundKey.Get 9
    ∧ (DefaultBaseNode.mk NodeType.LeafBase [1, 3, 5, 7] ([10, 30, 50, 70] : List Int)
        (BoundKey.Get 0) (BoundKey.Get 9) : DefaultBaseNode Int Int).Split.keys = [5, 7] := by
  have h := split_correct
    (DefaultBaseNode.mk NodeType.LeafBase [1, 3, 5, 7] ([10, 30, 50, 70] : List Int)
      (BoundKey.Get 0) (BoundKey.Get 9) : DefaultBaseNode Int Int) (by decide) (by decide)
  exact ⟨h.1.trans (by decide), h.2.1.trans (by decide), h.2.2.2.1.trans (by decide),
    h.2.2.2.2.2.1.trans (by decide), h.2.2.2.2.2.2.1.trans (by decide)⟩

/-! ### Delta headers built by `AppendHelper` (lines 850-997)

The header fields (`NodeType`, `height : uint16_t`, `size : uint32_t`) that
each `AppendLeaf.. / AppendInner..` function passes to `AllocateDelta` are
modelled as a `NodeHeader`; `obs` is the helper's observed node `node_p`.
The `uint16_t` / `uint32_t` conversions performed when the constructor
stores the computed `int` values are the explicit `% 2^16` / `% 2^32`. -/

/-- The header metadata common to `NodeBase` (lines 236-298): kind tag,
height in the chain, logical element count. -/
structure NodeHeader where
  ntype : NodeType
  height : Nat
  size : Nat
deriving DecidableEq

/-- `DefaultBaseNode::Get` (lines 552-567) constructs the base header with
`NodeHeightType{0}` and the requested size. -/
def mkBaseHeader (t : NodeType) (psize : Nat) : NodeHeader :=
  ⟨t, 0, psize⟩

/-- `AppendLeafInsert` (lines 887-896): `height + 1`, `size + 1`. -/
def buildLeafInsert (obs : NodeHeader) : NodeHeader :=
  ⟨NodeType.LeafInsert, (obs.height + 1) % 65536, (obs.size + 1) % 4294967296⟩

/-- `AppendLeafDelete` (lines 899-906): `height + 1`, `size - 1`
(`uint32_t` subtraction). -/
def buildLeafDelete (obs : NodeHeader) : NodeHeader :=
  ⟨NodeType.LeafDelete, (obs.height + 1) % 65536,
    (obs.size + (4294967296 - 1)) % 4294967296⟩

/-- `AppendLeafSplit` (lines 909-918): `node_p->GetHeight()` (no `+ 1`),
`size - new_size` (`uint32_t` subtraction of the new sibling's size). -/
def buildLeafSplit (obs : NodeHeader) (newSize : Nat) : NodeHeader :=
  ⟨NodeType.LeafSplit, obs.height,
    (obs.size + (4294967296 - newSize % 4294967296)) % 4294967296⟩

/-- `AppendLeafMerge` (lines 921-927): `height + sibling height`,
`size + sibling size`. -/
def buildLeafMerge (obs sib : NodeHeader) : NodeHeader :=
  ⟨NodeType.LeafMerge, (obs.height + sib.height) % 65536,
    (obs.size + sib.size) % 4294967296⟩

/-- `AppendLeafRemove` (lines 930-936): height and size unchanged. -/
def buildLeafRemove (obs : NodeHeader) : NodeHeader :=
  ⟨NodeType.LeafRemove, obs.height, obs.size⟩

/-- `AppendInnerInsert` (lines 939-947): `height + 1`, `size + 1`. -/
def buildInnerInsert (obs : NodeHeader) : NodeHeader :=
  ⟨NodeType.InnerInsert, (obs.height + 1) % 65536, (obs.size + 1) % 4294967296⟩

/-- `AppendInnerDelete` (lines 950-959): `height + 1`, `size - 1`. -/
def buildInnerDelete (obs : NodeHeader) : NodeHeader :=
  ⟨NodeType.InnerDelete, (obs.height + 1) % 65536,
    (obs.size + (4294967296 - 1)) % 4294967296⟩

/-- `AppendInnerSplit` (lines 962-970): `node_p->GetHeight()`,
`size - new_size`. -/
def buildInnerSplit (obs : NodeHeader) (newSize : Nat) : NodeHeader :=
  ⟨NodeType.InnerSplit, obs.height,
    (obs.size + (4294967296 - newSize % 4294967296)) % 4294967296⟩

/-- `AppendInnerMerge` (lines 973-979): `height + sibling height`,
`size + sibling size`. -/
def buildInnerMerge (obs sib : NodeHeader) : NodeHeader :=
  ⟨NodeType.InnerMerge, (obs.height + sib.height) % 65536,
    (obs.size + sib.size) % 4294967296⟩

/-- `AppendInnerRemove` (lines 982-988): height and size unchanged. -/
def buildInnerRemove (obs : NodeHeader) : NodeHeader :=
  ⟨NodeType.InnerRemove, obs.height, obs.size⟩

/-- Counterexample to claim C3: the split delta appended by
`AppendLeafSplit` on a freshly built base (height 0) carries height
`node_p->GetHeight()`, not `GetHeight() + 1`; its height equals the height
of the node directly below it instead of strictly exceeding it. -/
theorem append_height_counterexample :
    (buildLeafSplit (mkBaseHeader NodeType.LeafBase 5) 2).height
      = (mkBaseHeader NodeType.LeafBase 5).height
    ∧ ¬ (buildLeafSplit (mkBaseHeader NodeType.LeafBase 5) 2).height
      = (mkBaseHeader NodeType.LeafBase 5).height + 1
    ∧ (buildLeafRemove (mkBaseHeader NodeType.LeafBase 5)).height
      = (mkBaseHeader NodeType.LeafBase 5).height := by
  decide

/-- Claim C3 (amended): for deltas built by the append helper, insert and
delete deltas (leaf and inner) have height equal to the observed node's
height plus one; split and remove deltas keep the observed node's height
unchanged; a merge delta's height is the sum of the observed node's and the
sibling head's heights; a base built by the base-node factory has height 0.
Consequently the height is not strictly decreasing from head to base in
general. -/
theorem append_delta_heights (obs sib : NodeHeader) (newSize : Nat)
    (h1 : obs.height + 1 < 65536) (h2 : obs.height + sib.height < 65536) :
    (buildLeafInsert obs).height = obs.height + 1
    ∧ (buildInnerInsert obs).height = obs.height + 1
    ∧ (buildLeafDelete obs).height = obs.height + 1
    ∧ (buildInnerDelete obs).height = obs.height + 1
    ∧ (buildLeafSplit obs newSize).height = obs.height
    ∧ (buildInnerSplit obs newSize).height = obs.height
    ∧ (buildLeafRemove obs).height = obs.height
    ∧ (buildInnerRemove obs).height = obs.height
    ∧ (buildLeafMerge obs sib).height = obs.height + sib.height
    ∧ (buildInnerMerge obs sib).height = obs.height + sib.height
    ∧ (mkBaseHeader NodeType.LeafBase obs.size).height = 0 := by
  dsimp only [buildLeafInsert, buildInnerInsert, buildLeafDelete, buildInnerDelete,
    buildLeafSplit, buildInnerSplit, buildLeafRemove, buildInnerRemove,
    buildLeafMerge, buildInnerMerge, mkBaseHeader]
  refine ⟨?_, ?_, ?_, ?_, rfl, rfl, rfl, rfl, ?_, ?_, rfl⟩ <;> omega

/-- Witness for the amended C3 at `obs = ⟨LeafBase, 3, 10⟩`,
`sib = ⟨LeafBase, 2, 5⟩`. -/
theorem append_delta_heights_witness :
    (buildLeafInsert ⟨NodeType.LeafBase, 3, 10⟩).height = 4
    ∧ (buildLeafSplit ⟨NodeType.LeafBase, 3, 10⟩ 4).height = 3
    ∧ (buildLeafRemove ⟨NodeType.LeafBase, 3, 10⟩).height = 3
    ∧ (buildLeafMerge ⟨NodeType.LeafBase, 3, 10⟩ ⟨NodeType.LeafBase, 2, 5⟩).height = 5 := by
  have h := append_delta_heights ⟨NodeType.LeafBase, 3, 10⟩ ⟨NodeType.LeafBase, 2, 5⟩ 4
    (by decide) (by decide)
  exact ⟨h.1.trans (by decide), h.2.2.2.2.1.trans (by decide),
    h.2.2.2.2.2.2.1.trans (by decide), h.2.2.2.2.2.2.2.2.1.trans (by decide)⟩

/-- Claim C4: the size stored in a delta built by the append helper above an
observed node of size `s` is `s + 1` for insert deltas, `s - 1` for delete
deltas, `s` minus the given new sibling size for split deltas, `s` plus the
sibling head's size for merge deltas, and `s` for remove deltas (in the
non-overflowing range of the `uint32_t` size field). -/
theorem append_delta_sizes (obs sib : NodeHeader) (newSize : Nat)
    (h1 : obs.size + 1 < 4294967296) (h2 : 1 ≤ obs.size)
    (h3 : newSize ≤ obs.size) (h4 : obs.size + sib.size < 4294967296) :
    (buildLeafInsert obs).size = obs.size + 1
    ∧ (buildInnerInsert obs).size = obs.size + 1
    ∧ (buildLeafDelete obs).size = obs.size - 1
    ∧ (buildInnerDelete obs).size = obs.size - 1
    ∧ (buildLeafSplit obs newSize).size = obs.size - newSize
    ∧ (buildInnerSplit obs newSize).size = obs.size - newSize
    ∧ (buildLeafMerge obs sib).size = obs.size + sib.size
    ∧ (buildInnerMerge obs sib).size = obs.size + sib.size
    ∧ (buildLeafRemove obs).size = obs.size
    ∧ (buildInnerRemove obs).size = obs.size := by
  dsimp only [buildLeafInsert, buildInnerInsert, buildLeafDelete, buildInnerDelete,
    buildLeafSplit, buildInnerSplit, buildLeafRemove, buildInnerRemove,
    buildLeafMerge, buildInnerMerge]
  refine ⟨?_, ?_, ?_, ?_, ?_, ?_, ?_, ?_, rfl, rfl⟩ <;> omega

/-- Witness for C4 at `obs = ⟨LeafBase, 3, 10⟩`, `sib = ⟨LeafBase, 2, 5⟩`,
new sibling size 4. -/
theorem append_delta_sizes_witness :
    (buildLeafInsert ⟨NodeType.LeafBase, 3, 10⟩).size = 11
    ∧ (buildLeafDelete ⟨NodeType.LeafBase, 3, 10⟩).size = 9
    ∧ (buildLeafSplit ⟨NodeType.LeafBase, 3, 10⟩ 4).size = 6
    ∧ (buildLeafMerge ⟨NodeType.LeafBase, 3, 10⟩ ⟨NodeType.LeafBase, 2, 5⟩).size = 15
    ∧ (buildLeafRemove ⟨NodeType.LeafBase, 3, 10⟩).size = 10 := by
  have h := append_delta_sizes ⟨NodeType.LeafBase, 3, 10⟩ ⟨NodeType.LeafBase, 2, 5⟩ 4
    (by decide) (by decide) (by decide) (by decide)
  exact ⟨h.1.trans (by decide), h.2.2.1.trans (by decide), h.2.2.2.2.1.trans (by decide),
    h.2.2.2.2.2.2.1.trans (by decide), h.2.2.2.2.2.2.2.2.1.trans (by decide)⟩

/-! ### Mapping table (lines 104-194)

`DefaultMappingTable<BaseNodeType, TABLE_SIZE>` holds `TABLE_SIZE` atomic
pointers and an allocation counter.  Slot contents are modelled as
`Option P` (`none` is the zeroed/null pointer, `P` an abstract pointer type
whose decidable equality models pointer-identity comparison).  The claims
are sequential, so the atomic operations are modelled as pure state
transitions. -/

structure DefaultMappingTable (P : Type) (N : Nat) where
  mappingTable : Nat → Option P
  nextSlot : Nat

/-- A freshly obtained table: zero-initialised slots, counter at
`FIRST_NODE_ID = 0`. -/
def DefaultMappingTable.fresh {P : Type} {N : Nat} : DefaultMappingTable P N :=
  ⟨fun _ => none, 0⟩

/-- `At(node_id)` (lines 178-181): load of the slot. -/
def DefaultMappingTable.At {P : Type} {N : Nat} (t : DefaultMappingTable P N)
    (nodeId : Nat) : Option P :=
  t.mappingTable nodeId

/-- `AllocateNodeID(node_p)` (lines 144-152): `slot = next_slot.fetch_add(1);
assert(slot < TABLE_SIZE); mapping_table[slot] = node_p; return slot;`.
The debug assertion failure on overflow is modelled by `none`. -/
def DefaultMappingTable.AllocateNodeID {P : Type} {N : Nat}
    (t : DefaultMappingTable P N) (p : P) : Option (Nat × DefaultMappingTable P N) :=
  let slot := t.nextSlot
  if slot < N then
    some (slot, ⟨fun i => if i = slot then some p else t.mappingTable i, slot + 1⟩)
  else
    none

/-- `CAS(node_id, old_value, new_value)` (lines 170-175): strong compare
and swap on the slot; on failure the slot is untouched. -/
def DefaultMappingTable.CAS {P : Type} [DecidableEq P] {N : Nat}
    (t : DefaultMappingTable P N) (nodeId : Nat) (oldValue newValue : P) :
    Bool × DefaultMappingTable P N :=
  if t.mappingTable nodeId = some oldValue then
    (true, ⟨fun i => if i = nodeId then some newValue else t.mappingTable i, t.nextSlot⟩)
  else
    (false, t)

/-- A sequence of `AllocateNodeID` calls, one per pointer; fails (debug
assertion) as soon as one allocation overflows. -/
def allocateSeq {P : Type} {N : Nat} (t : DefaultMappingTable P N) :
    List P → Option (List Nat × DefaultMappingTable P N)
  | [] => some ([], t)
  | p :: ps =>
    match t.AllocateNodeID p with
    | none => none
    | some (id, t1) =>
      match allocateSeq t1 ps with
      | none => none
      | some (ids, t2) => some (id :: ids, t2)

/-- Invariant-carrying induction for `allocateSeq`: starting at counter `c`,
a run of `ps.length` allocations that fits in the table returns the ids
`c, c+1, ...`, bumps the counter by `ps.length`, publishes the pointers at
those slots, and leaves every other slot unchanged. -/
theorem allocateSeq_spec {P : Type} {N : Nat} (ps : List P) :
    ∀ (t : DefaultMappingTable P N), t.nextSlot + ps.length ≤ N →
      ∃ t2, allocateSeq t ps = some (List.range' t.nextSlot ps.length, t2)
        ∧ t2.nextSlot = t.nextSlot + ps.length
        ∧ (∀ j, j < t.nextSlot ∨ t.nextSlot + ps.length ≤ j →
            t2.mappingTable j = t.mappingTable j)
        ∧ (∀ (k : Nat) (hk : k < ps.length),
            t2.mappingTable (t.nextSlot + k) = some (ps.get ⟨k, hk⟩)) := by
  induction ps with
  | nil =>
    intro t _
    exact ⟨t, rfl, by simp, fun j _ => rfl, fun k hk => absurd hk (by simp)⟩
  | cons p ps ih =>
    intro t hle
    simp only [List.length_cons] at hle
    have hslot : t.nextSlot < N := by omega
    have halloc : t.AllocateNodeID p =
        some (t.nextSlot,
          ⟨fun i => if i = t.nextSlot then some p else t.mappingTable i, t.nextSlot + 1⟩) := by
      unfold DefaultMappingTable.AllocateNodeID
      rw [if_pos hslot]
    obtain ⟨t2, hrun, hnext, hpres, hnew⟩ :=
      ih ⟨fun i => if i = t.nextSlot then some p else t.mappingTable i, t.nextSlot + 1⟩
        (show t.nextSlot + 1 + ps.length ≤ N by omega)
    have hnext2 : t2.nextSlot = t.nextSlot + 1 + ps.length := hnext
    have hpres2 : ∀ j, j < t.nextSlot + 1 ∨ t.nextSlot + 1 + ps.length ≤ j →
        t2.mappingTable j = (if j = t.nextSlot then some p else t.mappingTable j) :=
      hpres
    have hnew2 : ∀ (k : Nat) (hk : k < ps.length),
        t2.mappingTable (t.nextSlot + 1 + k) = some (ps.get ⟨k, hk⟩) :=
      hnew
    have ht1slot : ∀ j, j ≠ t.nextSlot →
        (if j = t.nextSlot then some p else t.mappingTable j) = t.mappingTable j := by
      intro j hj
      rw [if_neg hj]
    refine ⟨t2, ?_, ?_, ?_, ?_⟩
    · unfold allocateSeq
      rw [halloc]
      simp only [hrun, List.length_cons, List.range'_succ]
    · simp only [List.length_cons]
      omega
    · intro j hj
      simp only [List.length_cons] at hj
      have hjne : j ≠ t.nextSlot := by omega
      have hp := hpres2 j (by omega)
      rw [hp]
      exact ht1slot j hjne
    · intro k hk
      match k with
      | 0 =>
        have hp := hpres2 t.nextSlot (by omega)
        rw [Nat.add_zero, hp]
        simp
      | Nat.succ k1 =>
        simp only [List.length_cons] at hk
        have hk1 : k1 < ps.length := by omega
        have hidx : t.nextSlot + (k1 + 1) = t.nextSlot + 1 + k1 := by omega
        rw [hidx, hnew2 k1 hk1, List.get_cons_succ]

/-- Claim C6: starting from a fresh mapping table of capacity `N`, a
sequence of `AllocateNodeID` calls returns the ids `0, 1, 2, ...` (the
`i`-th call returns `i - 1`), which are pairwise distinct and lie in
`[0, N)`; each call publishes its pointer so that `At` of the returned id
yields it; once the table is full the next allocation fails the debug
assertion (modelled by `none`). -/
theorem allocateNodeID_sequence_correct {P : Type} {N : Nat} (ps : List P)
    (hlen : ps.length ≤ N) :
    ∃ t2, allocateSeq (DefaultMappingTable.fresh : DefaultMappingTable P N) ps
        = some (List.range ps.length, t2)
      ∧ (List.range ps.length).Nodup
      ∧ (∀ i ∈ List.range ps.length, i < N)
      ∧ (∀ (k : Nat) (hk : k < ps.length), t2.At k = some (ps.get ⟨k, hk⟩))
      ∧ t2.nextSlot = ps.length
      ∧ (ps.length = N → ∀ q : P, t2.AllocateNodeID q = none) := by
  obtain ⟨t2, hrun, hnext, hpres, hnew⟩ :=
    allocateSeq_spec ps (DefaultMappingTable.fresh : DefaultMappingTable P N)
      (show 0 + ps.length ≤ N by omega)
  have hrun2 : allocateSeq (DefaultMappingTable.fresh : DefaultMappingTable P N) ps
      = some (List.range' 0 ps.length, t2) := hrun
  have hnext2 : t2.nextSlot = 0 + ps.length := hnext
  have hnew2 : ∀ (k : Nat) (hk : k < ps.length),
      t2.mappingTable (0 + k) = some (ps.get ⟨k, hk⟩) := hnew
  refine ⟨t2, ?_, List.nodup_range ps.length, ?_, ?_, by omega, ?_⟩
  · rw [List.range_eq_range']
    exact hrun2
  · intro i hi
    rw [List.mem_range] at hi
    omega
  · intro k hk
    have := hnew2 k hk
    rw [Nat.zero_add] at this
    exact this
  · intro hfull q
    unfold DefaultMappingTable.AllocateNodeID
    rw [if_neg (by omega)]

/-- Witness for C6: capacity 3, allocating pointers `[10, 20, 30]` yields
ids `[0, 1, 2]`, slot 1 afterwards holds 20, and a fourth allocation fails
the capacity assertion. -/
theorem allocateNodeID_sequence_correct_witness :
    ((allocateSeq (DefaultMappingTable.fresh : DefaultMappingTable Nat 3)
        [10, 20, 30]).map Prod.fst = some [0, 1, 2])
    ∧ ((allocateSeq (DefaultMappingTable.fresh : DefaultMappingTable Nat 3)
        [10, 20, 30]).bind (fun r => r.2.At 1) = some 20)
    ∧ ((allocateSeq (DefaultMappingTable.fresh : DefaultMappingTable Nat 3)
        [10, 20, 30]).bind (fun r => r.2.AllocateNodeID 99) = none) := by
  obtain ⟨t2, hrun, _, _, hAt, _, hofl⟩ :=
    allocateNodeID_sequence_correct (P := Nat) (N := 3) [10, 20, 30] (by decide)
  refine ⟨?_, ?_, ?_⟩
  · rw [hrun]
    rfl
  · rw [hrun]
    exact hAt 1 (by decide)
  · rw [hrun]
    exact hofl rfl 99

/-! ### Append helper publish step (lines 850-997)

Every `AppendLeaf.. / AppendInner..` function of `AppendHelper` ends with
the same publish line
`return table_p->CAS(node_id, node_p, delta_p) ? (node_p = delta_p, nullptr) : delta_p;`
(lines 895, 905, 917, 926, 935, 946, 958, 969, 978, 987).  `appendPublish`
models that shared step: `st` holds the helper's `node_id` and observed
head `node_p`, `deltaPtr` is the freshly allocated (hence unpublished)
delta record. -/

structure AppendHelperState (P : Type) where
  nodeId : Nat
  nodePtr : P
deriving DecidableEq

/-- The publish step: CAS the slot from the observed head to the new delta;
on success update the internal observed head and return null (`none`), on
failure return the delta. -/
def appendPublish {P : Type} [DecidableEq P] {N : Nat} (st : AppendHelperState P)
    (t : DefaultMappingTable P N) (deltaPtr : P) :
    Option P × AppendHelperState P × DefaultMappingTable P N :=
  let r := t.CAS st.nodeId st.nodePtr deltaPtr
  if r.1 then (none, ⟨st.nodeId, deltaPtr⟩, r.2) else (some deltaPtr, st, r.2)

/-- Claim C5: an append operation returns null exactly when its CAS
succeeds; on success the helper's observed head becomes the new delta and
the slot now holds it (other slots untouched); on failure it returns the
newly built, unpublished delta while the table and the observed head are
left unchanged. -/
theorem appendPublish_cas_correct {P : Type} [DecidableEq P] {N : Nat}
    (st : AppendHelperState P) (t : DefaultMappingTable P N) (deltaPtr : P) :
    ((appendPublish st t deltaPtr).1 = none ↔ t.At st.nodeId = some st.nodePtr)
    ∧ (t.At st.nodeId = some st.nodePtr →
        (appendPublish st t deltaPtr).2.1 = ⟨st.nodeId, deltaPtr⟩
        ∧ (appendPublish st t deltaPtr).2.2.At st.nodeId = some deltaPtr
        ∧ ∀ i, i ≠ st.nodeId → (appendPublish st t deltaPtr).2.2.At i = t.At i)
    ∧ (t.At st.nodeId ≠ some st.nodePtr →
        (appendPublish st t deltaPtr).1 = some deltaPtr
        ∧ (appendPublish st t deltaPtr).2.1 = st
        ∧ (appendPublish st t deltaPtr).2.2 = t) := by
  by_cases h : t.mappingTable st.nodeId = some st.nodePtr
  · have hred : appendPublish st t deltaPtr =
        (none, ⟨st.nodeId, deltaPtr⟩,
          ⟨fun i => if i = st.nodeId then some deltaPtr else t.mappingTable i, t.nextSlot⟩) := by
      simp [appendPublish, DefaultMappingTable.CAS, h]
    rw [hred]
    refine ⟨by simp [DefaultMappingTable.At, h], fun _ => ⟨rfl, ?_, ?_⟩,
      fun hcontra => absurd h hcontra⟩
    · show (if st.nodeId = st.nodeId then some deltaPtr else t.mappingTable st.nodeId)
        = some deltaPtr
      rw [if_pos rfl]
    · intro i hi
      show (if i = st.nodeId then some deltaPtr else t.mappingTable i) = t.mappingTable i
      rw [if_neg hi]
  · have hred : appendPublish st t deltaPtr = (some deltaPtr, st, t) := by
      simp [appendPublish, DefaultMappingTable.CAS, h]
    rw [hred]
    exact ⟨by simp [DefaultMappingTable.At, h], fun hcontra => absurd hcontra h,
      fun _ => ⟨rfl, rfl, rfl⟩⟩

/-- Witness for C5: a table of capacity 4 whose slot 2 holds pointer 5.
A helper that observed head 5 publishes delta 9 and returns null; a helper
that observed a stale head 6 gets the delta 9 back and changes nothing. -/
theorem appendPublish_cas_correct_witness :
    ((appendPublish (⟨2, 5⟩ : AppendHelperState Nat)
        (⟨fun i => if i = 2 then some 5 else none, 3⟩ : DefaultMappingTable Nat 4) 9).1 = none)
    ∧ ((appendPublish (⟨2, 5⟩ : AppendHelperState Nat)
        (⟨fun i => if i = 2 then some 5 else none, 3⟩ : DefaultMappingTable Nat 4) 9).2.1
        = ⟨2, 9⟩)
    ∧ ((appendPublish (⟨2, 5⟩ : AppendHelperState Nat)
        (⟨fun i => if i = 2 then some 5 else none, 3⟩ : DefaultMappingTable Nat 4) 9).2.2.At 2
        = some 9)
    ∧ ((appendPublish (⟨2, 6⟩ : AppendHelperState Nat)
        (⟨fun i => if i = 2 then some 5 else none, 3⟩ : DefaultMappingTable Nat 4) 9).1
        = some 9)
    ∧ ((appendPublish (⟨2, 6⟩ : AppendHelperState Nat)
        (⟨fun i => if i = 2 then some 5 else none, 3⟩ : DefaultMappingTable Nat 4) 9).2.2
        = ⟨fun i => if i = 2 then some 5 else none, 3⟩) := by
  have hok := appendPublish_cas_correct (⟨2, 5⟩ : AppendHelperState Nat)
    (⟨fun i => if i = 2 then some 5 else none, 3⟩ : DefaultMappingTable Nat 4) 9
  have hfail := appendPublish_cas_correct (⟨2, 6⟩ : AppendHelperState Nat)
    (⟨fun i => if i = 2 then some 5 else none, 3⟩ : DefaultMappingTable Nat 4) 9
  have hobs : (⟨fun i => if i = 2 then some 5 else none, 3⟩ :
      DefaultMappingTable Nat 4).At 2 = some 5 := rfl
  have hstale : (⟨fun i => if i = 2 then some 5 else none, 3⟩ :
      DefaultMappingTable Nat 4).At 2 ≠ some 6 := by
    rw [hobs]
    decide
  exact ⟨hok.1.mpr hobs, (hok.2.1 hobs).1, (hok.2.1 hobs).2.1,
    (hfail.2.2 hstale).1, (hfail.2.2 hstale).2.2⟩

/-! ### Consolidator (lines 1095-1222)

`DefaultConsolidator` walks a leaf delta chain from the head down,
collecting the keys of insert deltas (`inserted_list`) and delete deltas
(`deleted_list`), and on reaching the base sorts the inserted list.  A leaf
chain built over an initially empty base by a sequence `S` of append-helper
inserts and deletes is the list of those operations with the newest at the
head, i.e. `S.reverse`.  The value sitting next to each collected insert
key in its delta is carried alongside the key (the source stores key
pointers and recovers the value by the fixed key-to-value offset). -/

/-- One leaf update operation: `AppendLeafInsert(k, v)` or
`AppendLeafDelete(k, v)` (the delete also carries a value; the consolidator
only uses its key). -/
inductive LeafOp (K V : Type) where
  | ins (key : K) (value : V)
  | del (key : K) (value : V)
deriving DecidableEq

/-- The consolidator's traversal state: `inserted_list` and `deleted_list`
(lines 1213-1217). -/
structure ConsolidateState (K V : Type) where
  insertedList : List (K × V)
  deletedList : List K
deriving DecidableEq

/-- `IsInList(key, key_list_p, num)` (lines 1130-1133): linear scan for an
equal key. -/
def isInList {K : Type} [DecidableEq K] (k : K) (l : List K) : Bool :=
  l.any (fun x => decide (x = k))

/-- `IsInserted(key)` (line 1135): scan of the inserted list. -/
def ConsolidateState.IsInserted {K V : Type} [DecidableEq K]
    (st : ConsolidateState K V) (k : K) : Bool :=
  isInList k (st.insertedList.map Prod.fst)

/-- `IsDeleted(key)` (line 1137): scan of the deleted list. -/
def ConsolidateState.IsDeleted {K V : Type} [DecidableEq K]
    (st : ConsolidateState K V) (k : K) : Bool :=
  isInList k st.deletedList

/-- `Insert(key_p)` (lines 1139-1145): pushed onto the inserted list iff
the key is not in the deleted list (the inserted list itself is NOT
checked). -/
def ConsolidateState.Insert {K V : Type} [DecidableEq K]
    (st : ConsolidateState K V) (k : K) (v : V) : ConsolidateState K V :=
  if st.IsDeleted k = false then
    { st with insertedList := st.insertedList ++ [(k, v)] }
  else
    st

/-- `Delete(key_p)` (lines 1147-1153): pushed onto the deleted list iff the
key is not in the inserted list. -/
def ConsolidateState.Delete {K V : Type} [DecidableEq K]
    (st : ConsolidateState K V) (k : K) : ConsolidateState K V :=
  if st.IsInserted k = false then
    { st with deletedList := st.deletedList ++ [k] }
  else
    st

/-- `HandleLeafInsert` / `HandleLeafDelete` (lines 1169-1181) dispatched on
one chain record. -/
def consolidateStep {K V : Type} [DecidableEq K] (st : ConsolidateState K V) :
    LeafOp K V → ConsolidateState K V
  | .ins k v => st.Insert k v
  | .del k _ => st.Delete k

/-- The traverser run over a leaf chain given with the newest delta first,
ending at the (empty) base. -/
def consolidateTraverse {K V : Type} [DecidableEq K]
    (chainHeadFirst : List (LeafOp K V)) : ConsolidateState K V :=
  chainHeadFirst.foldl consolidateStep ⟨[], []⟩

/-- `KeyPtrGreater::operator()(p1, p2)` (lines 64-71): `return *p1 < *p2;`
— despite the name, it compares with less-than. -/
def KeyPtrGreater {K : Type} [LinearOrder K] (k1 k2 : K) : Bool :=
  decide (k1 < k2)

/-- Insertion step of the comparison sort modelling `std::sort`. -/
def insertSortedBy {A : Type} (c : A → A → Bool) (a : A) : List A → List A
  | [] => [a]
  | b :: l => if c a b then a :: b :: l else b :: insertSortedBy c a l

/-- A comparison sort modelling `std::sort(first, last, comp)`: the result
is ordered by the strict comparator `comp` (insertion sort; on the
distinct-key inputs of the claims every `std::sort`-conforming result
agrees with it). -/
def sortBy {A : Type} (c : A → A → Bool) : List A → List A
  | [] => []
  | a :: l => insertSortedBy c a (sortBy c l)

/-- `SortInsertedList()` (line 1128):
`std::sort(inserted_list, inserted_list + inserted_num, KeyPtrGreaterType{})`. -/
def SortInsertedList {K : Type} [LinearOrder K] (l : List K) : List K :=
  sortBy (fun a b => KeyPtrGreater a b) l

/-- `SortInsertedList` acting on collected keys paired with the values
recovered from their insert deltas. -/
def SortInsertedPairs {K V : Type} [LinearOrder K] (l : List (K × V)) : List (K × V) :=
  sortBy (fun a b => KeyPtrGreater a.1 b.1) l

/-- Modelled from the spec: the final merge step of the consolidator is
absent from the source (`DefaultConsolidator` stops after sorting, the
interleaved merge existing only as a sketch), so it is taken from §4.6
rule 5: iterate the base's entries in ascending order, interleaving from
the top of the inserted stack whichever is smaller, skipping base keys
present in the deleted list; with no split on the chain every element is
processed.  `stack` holds the inserted entries with the stack top first. -/
def mergeWithBase {K V : Type} [LinearOrder K] :
    List (K × V) → List (K × V) → List K → List (K × V)
  | [], stack, _ => stack
  | e :: bs, stack, del =>
    (stack.takeWhile (fun i => decide (i.1 < e.1))) ++
      (if isInList e.1 del then
        mergeWithBase bs (stack.dropWhile (fun i => decide (i.1 < e.1))) del
      else
        e :: mergeWithBase bs (stack.dropWhile (fun i => decide (i.1 < e.1))) del)

/-- The full consolidation of the chain built by applying the operation
sequence `S` (oldest first) on a base with entries `base`: traverse the
chain newest-first collecting inserted/deleted keys, sort the inserted list
with `KeyPtrGreater`, then run the final merge consuming it as a stack
(top = last array slot, hence `reverse`). -/
def ConsolidateLeaf {K V : Type} [LinearOrder K] (S : List (LeafOp K V))
    (base : List (K × V)) : List (K × V) :=
  let st := consolidateTraverse S.reverse
  mergeWithBase base ((SortInsertedPairs st.insertedList).reverse) st.deletedList

/-- Modelled from the spec: "applying S directly to a sorted set" (P8) —
insert sets the key's entry, delete removes it, entries stay sorted by
key. -/
def sortedInsertEntry {K V : Type} [LinearOrder K] (k : K) (v : V) :
    List (K × V) → List (K × V)
  | [] => [(k, v)]
  | e :: l =>
    if k < e.1 then (k, v) :: e :: l
    else if k = e.1 then (k, v) :: l
    else e :: sortedInsertEntry k v l

/-- Modelled from the spec: the reference semantics of a sequence of leaf
inserts and deletes on a sorted set of entries. -/
def applyOpsDirect {K V : Type} [LinearOrder K] :
    List (LeafOp K V) → List (K × V) → List (K × V)
  | [], m => m
  | op :: S, m =>
    match op with
    | .ins k v => applyOpsDirect S (sortedInsertEntry k v m)
    | .del k _ => applyOpsDirect S (m.filter (fun e => decide (e.1 ≠ k)))

/-- Claim C7 fails on the code: for the sequence
`insert(100, 1); delete(100); insert(100, 2)` on an initially empty leaf,
the traversal (newest first) collects `insert(100, 2)`, then skips
recording `delete(100)` because key 100 is already in the inserted list,
and therefore also collects the older `insert(100, 1)`; the consolidated
base carries key 100 twice, while direct application yields the single
entry `(100, 2)`. -/
theorem consolidate_roundtrip_counterexample :
    (ConsolidateLeaf
        [LeafOp.ins (100 : Int) (1 : Int), LeafOp.del 100 1, LeafOp.ins 100 2]
        []).map Prod.fst = [100, 100]
    ∧ applyOpsDirect
        [LeafOp.ins (100 : Int) (1 : Int), LeafOp.del 100 1, LeafOp.ins 100 2]
        [] = [(100, 2)]
    ∧ ¬ (ConsolidateLeaf
        [LeafOp.ins (100 : Int) (1 : Int), LeafOp.del 100 1, LeafOp.ins 100 2] []
      = applyOpsDirect
        [LeafOp.ins (100 : Int) (1 : Int), LeafOp.del 100 1, LeafOp.ins 100 2] []) := by
  decide

/-- Claim C8 fails on the code: `SortInsertedList` orders the collected
keys in ascending order, not descending, because `KeyPtrGreater` (despite
its name, and despite the comment "keys are sorted from larger to
smaller") compares with `*p1 < *p2`.  On the inserted keys `[2, 1]` the
result is `[1, 2]`, not the descending `[2, 1]` the claim requires. -/
theorem sortInsertedList_ascending_counterexample :
    SortInsertedList ([2, 1] : List Int) = [1, 2]
    ∧ SortInsertedList ([2, 1] : List Int) ≠ [2, 1] := by
  decide

/-! ### Delta-chain free helper (lines 999-1093)

`DeltaChainFreeHelper` walks a chain and destroys every record.  A leaf
chain is modelled as a tree (`mergeDelta` holds both the node below and the
sibling branch).  Each heap record is identified by its path from the chain
head (`0 :: p` = the `next` pointer, `1 :: p` = a merge's sibling pointer),
which models the pointer identity of the separately allocated records.
`freeHelperEvents` is the exact sequence of effects the helper performs:
each non-merge handler destroys its record and then the traverser advances
(lines 1040-1065, 1081-1090, remove releasing the carried id first); the
merge handler recursively traverses the node below, then the sibling, and
destroys itself last (lines 1068-1079); the base handler destroys the base
and stops (lines 1031-1038). -/

inductive LeafChain where
  | base : LeafChain
  | insertDelta (next : LeafChain) : LeafChain
  | deleteDelta (next : LeafChain) : LeafChain
  | splitDelta (next : LeafChain) : LeafChain
  | mergeDelta (next : LeafChain) (sibling : LeafChain) : LeafChain
  | removeDelta (removedId : Nat) (next : LeafChain) : LeafChain
deriving DecidableEq

/-- An observable effect of the free helper: a record handed to the base's
`DestroyDelta`, a base destroyed via `Destroy`, or a node id released on
the mapping table. -/
inductive FreeEvent where
  | destroyDelta (path : List Nat) : FreeEvent
  | destroyBase (path : List Nat) : FreeEvent
  | releaseId (id : Nat) : FreeEvent
deriving DecidableEq

/-- The effect trace of `DeltaChainTraverser::Traverse` run with a
`DeltaChainFreeHelper` on the (sub)chain `t` whose head has path `p`. -/
def freeHelperEvents : LeafChain → List Nat → List FreeEvent
  | .base, p => [.destroyBase p]
  | .insertDelta nxt, p => .destroyDelta p :: freeHelperEvents nxt (0 :: p)
  | .deleteDelta nxt, p => .destroyDelta p :: freeHelperEvents nxt (0 :: p)
  | .splitDelta nxt, p => .destroyDelta p :: freeHelperEvents nxt (0 :: p)
  | .mergeDelta nxt sib, p =>
    freeHelperEvents nxt (0 :: p) ++ freeHelperEvents sib (1 :: p) ++ [.destroyDelta p]
  | .removeDelta i nxt, p =>
    .releaseId i :: .destroyDelta p :: freeHelperEvents nxt (0 :: p)

/-- The paths of all delta records of the chain, in the helper's
destruction order. -/
def deltaPaths : LeafChain → List Nat → List (List Nat)
  | .base, _ => []
  | .insertDelta nxt, p => p :: deltaPaths nxt (0 :: p)
  | .deleteDelta nxt, p => p :: deltaPaths nxt (0 :: p)
  | .splitDelta nxt, p => p :: deltaPaths nxt (0 :: p)
  | .mergeDelta nxt sib, p => deltaPaths nxt (0 :: p) ++ deltaPaths sib (1 :: p) ++ [p]
  | .removeDelta _ nxt, p => p :: deltaPaths nxt (0 :: p)

/-- The paths of all base nodes reached by the chain (one per branch). -/
def basePaths : LeafChain → List Nat → List (List Nat)
  | .base, p => [p]
  | .insertDelta nxt, p => basePaths nxt (0 :: p)
  | .deleteDelta nxt, p => basePaths nxt (0 :: p)
  | .splitDelta nxt, p => basePaths nxt (0 :: p)
  | .mergeDelta nxt sib, p => basePaths nxt (0 :: p) ++ basePaths sib (1 :: p)
  | .removeDelta _ nxt, p => basePaths nxt (0 :: p)

/-- The `(carried id, path)` pairs of all remove deltas in the chain. -/
def removeEntries : LeafChain → List Nat → List (Nat × List Nat)
  | .base, _ => []
  | .insertDelta nxt, p => removeEntries nxt (0 :: p)
  | .deleteDelta nxt, p => removeEntries nxt (0 :: p)
  | .splitDelta nxt, p => removeEntries nxt (0 :: p)
  | .mergeDelta nxt sib, p => removeEntries nxt (0 :: p) ++ removeEntries sib (1 :: p)
  | .removeDelta i nxt, p => (i, p) :: removeEntries nxt (0 :: p)

/-- The delta records a trace hands to `DestroyDelta`, in order. -/
def destroyedDeltaPaths (es : List FreeEvent) : List (List Nat) :=
  es.filterMap (fun e => match e with | .destroyDelta p => some p | _ => none)

/-- The base nodes a trace destroys, in order. -/
def destroyedBasePaths (es : List FreeEvent) : List (List Nat) :=
  es.filterMap (fun e => match e with | .destroyBase p => some p | _ => none)

theorem destroyedDeltaPaths_append (a b : List FreeEvent) :
    destroyedDeltaPaths (a ++ b) = destroyedDeltaPaths a ++ destroyedDeltaPaths b := by
  unfold destroyedDeltaPaths
  rw [List.filterMap_append]

theorem destroyedBasePaths_append (a b : List FreeEvent) :
    destroyedBasePaths (a ++ b) = destroyedBasePaths a ++ destroyedBasePaths b := by
  unfold destroyedBasePaths
  rw [List.filterMap_append]

/-- The destroy-delta events of the free helper's trace are exactly the
chain's delta records, in destruction order. -/
theorem destroyedDeltaPaths_freeHelper (t : LeafChain) :
    ∀ p, destroyedDeltaPaths (freeHelperEvents t p) = deltaPaths t p := by
  induction t with
  | base => intro p; rfl
  | insertDelta nxt ih =>
    intro p
    simp [freeHelperEvents, deltaPaths, destroyedDeltaPaths, List.filterMap_cons,
      ← ih (0 :: p), destroyedDeltaPaths]
  | deleteDelta nxt ih =>
    intro p
    simp [freeHelperEvents, deltaPaths, destroyedDeltaPaths, List.filterMap_cons,
      ← ih (0 :: p), destroyedDeltaPaths]
  | splitDelta nxt ih =>
    intro p
    simp [freeHelperEvents, deltaPaths, destroyedDeltaPaths, List.filterMap_cons,
      ← ih (0 :: p), destroyedDeltaPaths]
  | mergeDelta nxt sib ih1 ih2 =>
    intro p
    simp only [freeHelperEvents, deltaPaths, destroyedDeltaPaths_append,
      ih1 (0 :: p), ih2 (1 :: p)]
    rfl
  | removeDelta i nxt ih =>
    intro p
    simp [freeHelperEvents, deltaPaths, destroyedDeltaPaths, List.filterMap_cons,
      ← ih (0 :: p), destroyedDeltaPaths]

/-- The destroy-base events of the free helper's trace are exactly the
chain's base nodes. -/
theorem destroyedBasePaths_freeHelper (t : LeafChain) :
    ∀ p, destroyedBasePaths (freeHelperEvents t p) = basePaths t p := by
  induction t with
  | base => intro p; rfl
  | insertDelta nxt ih =>
    intro p
    simp [freeHelperEvents, basePaths, destroyedBasePaths, List.filterMap_cons,
      ← ih (0 :: p), destroyedBasePaths]
  | deleteDelta nxt ih =>
    intro p
    simp [freeHelperEvents, basePaths, destroyedBasePaths, List.filterMap_cons,
      ← ih (0 :: p), destroyedBasePaths]
  | splitDelta nxt ih =>
    intro p
    simp [freeHelperEvents, basePaths, destroyedBasePaths, List.filterMap_cons,
      ← ih (0 :: p), destroyedBasePaths]
  | mergeDelta nxt sib ih1 ih2 =>
    intro p
    simp only [freeHelperEvents, basePaths, destroyedBasePaths_append,
      ih1 (0 :: p), ih2 (1 :: p)]
    simp [destroyedBasePaths]
  | removeDelta i nxt ih =>
    intro p
    simp [freeHelperEvents, basePaths, destroyedBasePaths, List.filterMap_cons,
      ← ih (0 :: p), destroyedBasePaths]

/-- Every delta path below a head at path `p` has `p` as a suffix. -/
theorem deltaPaths_suffix (t : LeafChain) :
    ∀ (p q : List Nat), q ∈ deltaPaths t p → p <:+ q := by
  induction t with
  | base => intro p q h; simp [deltaPaths] at h
  | insertDelta nxt ih =>
    intro p q h
    rcases List.mem_cons.mp h with rfl | h
    · exact List.suffix_refl q
    · exact (List.suffix_cons 0 p).trans (ih (0 :: p) q h)
  | deleteDelta nxt ih =>
    intro p q h
    rcases List.mem_cons.mp h with rfl | h
    · exact List.suffix_refl q
    · exact (List.suffix_cons 0 p).trans (ih (0 :: p) q h)
  | splitDelta nxt ih =>
    intro p q h
    rcases List.mem_cons.mp h with rfl | h
    · exact List.suffix_refl q
    · exact (List.suffix_cons 0 p).trans (ih (0 :: p) q h)
  | mergeDelta nxt sib ih1 ih2 =>
    intro p q h
    simp only [deltaPaths, List.append_assoc, List.mem_append, List.mem_singleton] at h
    rcases h with h | h | rfl
    · exact (List.suffix_cons 0 p).trans (ih1 (0 :: p) q h)
    · exact (List.suffix_cons 1 p).trans (ih2 (1 :: p) q h)
    · exact List.suffix_refl q
  | removeDelta i nxt ih =>
    intro p q h
    rcases List.mem_cons.mp h with rfl | h
    · exact List.suffix_refl q
    · exact (List.suffix_cons 0 p).trans (ih (0 :: p) q h)

/-- Two suffixes of the same list with equal lengths coincide. -/
theorem suffix_eq_of_length {A : Type} {s1 s2 q : List A}
    (h1 : s1 <:+ q) (h2 : s2 <:+ q) (h : s1.length = s2.length) : s1 = s2 := by
  obtain ⟨a, rfl⟩ := h1
  obtain ⟨b, hb⟩ := h2
  have hlen : b.length = a.length := by
    have := congrArg List.length hb
    simp only [List.length_append] at this
    omega
  exact ((List.append_inj hb hlen).2).symm ▸ rfl

/-- A path cannot lie strictly below itself. -/
theorem not_mem_deltaPaths_below (t : LeafChain) (x : Nat) (p : List Nat) :
    p ∉ deltaPaths t (x :: p) := by
  intro hmem
  have hsuf := deltaPaths_suffix t (x :: p) p hmem
  have := hsuf.length_le
  simp at this

/-- The delta paths of a chain are pairwise distinct: the helper hands each
record to `DestroyDelta` exactly once. -/
theorem deltaPaths_nodup (t : LeafChain) : ∀ p, (deltaPaths t p).Nodup := by
  induction t with
  | base => intro p; simp [deltaPaths]
  | insertDelta nxt ih =>
    intro p
    exact List.nodup_cons.mpr ⟨not_mem_deltaPaths_below nxt 0 p, ih (0 :: p)⟩
  | deleteDelta nxt ih =>
    intro p
    exact List.nodup_cons.mpr ⟨not_mem_deltaPaths_below nxt 0 p, ih (0 :: p)⟩
  | splitDelta nxt ih =>
    intro p
    exact List.nodup_cons.mpr ⟨not_mem_deltaPaths_below nxt 0 p, ih (0 :: p)⟩
  | mergeDelta nxt sib ih1 ih2 =>
    intro p
    simp only [deltaPaths]
    have hdisj : (deltaPaths nxt (0 :: p)).Disjoint (deltaPaths sib (1 :: p)) := by
      intro q hq1 hq2
      have hs1 := deltaPaths_suffix nxt (0 :: p) q hq1
      have hs2 := deltaPaths_suffix sib (1 :: p) q hq2
      have : (0 :: p) = (1 :: p) := suffix_eq_of_length hs1 hs2 (by simp)
      simp at this
    have hAB : ((deltaPaths nxt (0 :: p)) ++ (deltaPaths sib (1 :: p))).Nodup :=
      List.Nodup.append (ih1 (0 :: p)) (ih2 (1 :: p)) hdisj
    refine List.Nodup.append hAB (by simp) ?_
    intro q hq hqp
    rw [List.mem_singleton] at hqp
    subst hqp
    rcases List.mem_append.mp hq with h | h
    · exact not_mem_deltaPaths_below nxt 0 q h
    · exact not_mem_deltaPaths_below sib 1 q h
  | removeDelta i nxt ih =>
    intro p
    exact List.nodup_cons.mpr ⟨not_mem_deltaPaths_below nxt 0 p, ih (0 :: p)⟩

/-- For every remove delta, the free helper releases its carried id before
destroying the record (the two events occur in this order in the trace). -/
theorem releaseId_before_destroy (t : LeafChain) :
    ∀ (p : List Nat) (i : Nat) (q : List Nat), (i, q) ∈ removeEntries t p →
      List.Sublist [FreeEvent.releaseId i, FreeEvent.destroyDelta q]
        (freeHelperEvents t p) := by
  induction t with
  | base => intro p i q h; simp [removeEntries] at h
  | insertDelta nxt ih =>
    intro p i q h
    exact (ih (0 :: p) i q h).cons _
  | deleteDelta nxt ih =>
    intro p i q h
    exact (ih (0 :: p) i q h).cons _
  | splitDelta nxt ih =>
    intro p i q h
    exact (ih (0 :: p) i q h).cons _
  | mergeDelta nxt sib ih1 ih2 =>
    intro p i q h
    rcases List.mem_append.mp h with h | h
    · exact ((ih1 (0 :: p) i q h).trans
        (List.sublist_append_left _ _)).trans (List.sublist_append_left _ _)
    · exact ((ih2 (1 :: p) i q h).trans
        (List.sublist_append_right _ _)).trans (List.sublist_append_left _ _)
  | removeDelta j nxt ih =>
    intro p i q h
    rcases List.mem_cons.mp h with heq | h
    · simp only [Prod.mk.injEq] at heq
      obtain ⟨rfl, rfl⟩ := heq
      exact ((List.nil_sublist _).cons₂ _).cons₂ _
    · exact ((ih (0 :: p) i q h).cons _).cons _

/-- Claim C9: after the free helper traverses a chain, the sequence of
records handed to `DestroyDelta` is exactly the chain's delta records —
each exactly once, descending through both branches of every merge delta —
every base node reached is destroyed, and for every remove delta the
carried id is released on the mapping table before that record is
destroyed. -/
theorem freeHelper_destroys_all (t : LeafChain) (p : List Nat) :
    destroyedDeltaPaths (freeHelperEvents t p) = deltaPaths t p
    ∧ (deltaPaths t p).Nodup
    ∧ destroyedBasePaths (freeHelperEvents t p) = basePaths t p
    ∧ (∀ (i : Nat) (q : List Nat), (i, q) ∈ removeEntries t p →
        List.Sublist [FreeEvent.releaseId i, FreeEvent.destroyDelta q]
          (freeHelperEvents t p)) :=
  ⟨destroyedDeltaPaths_freeHelper t p, deltaPaths_nodup t p,
    destroyedBasePaths_freeHelper t p, releaseId_before_destroy t p⟩

/-- Witness for C9 on the chain `merge(insert → base, remove 7 → base)`:
the delta destruction order is (the insert at `[0]`, the remove at `[1]`,
the merge at `[]`), both bases are destroyed, and the release of id 7
precedes the destruction of the remove delta. -/
theorem freeHelper_destroys_all_witness :
    destroyedDeltaPaths (freeHelperEvents
        (LeafChain.mergeDelta (LeafChain.insertDelta LeafChain.base)
          (LeafChain.removeDelta 7 LeafChain.base)) [])
      = deltaPaths (LeafChain.mergeDelta (LeafChain.insertDelta LeafChain.base)
          (LeafChain.removeDelta 7 LeafChain.base)) []
    ∧ (deltaPaths (LeafChain.mergeDelta (LeafChain.insertDelta LeafChain.base)
          (LeafChain.removeDelta 7 LeafChain.base)) []).Nodup
    ∧ List.Sublist [FreeEvent.releaseId 7, FreeEvent.destroyDelta [1]]
        (freeHelperEvents (LeafChain.mergeDelta (LeafChain.insertDelta LeafChain.base)
          (LeafChain.removeDelta 7 LeafChain.base)) []) := by
  have h := freeHelper_destroys_all
    (LeafChain.mergeDelta (LeafChain.insertDelta LeafChain.base)
      (LeafChain.removeDelta 7 LeafChain.base)) []
  exact ⟨h.1, h.2.1, h.2.2.2 7 [1] (by decide)⟩

end BwTreeSpec
